import Mathlib

/-! Shallow embedding of the relevance-check repository's core pipeline:
the `DataProcessor` normalization and windowing transform
(src/utils/dataProcessor.js) and the `SSMAttentionModel` lifecycle and
evaluation metrics (src/models/model.js).

Conventions of the embedding:
* JavaScript numbers are modelled as rationals (`ℚ`); the correlation
  metric, whose source uses `Math.sqrt`, is modelled over the reals.
* The `normalize`/`denormalize` pair can meet `undefined` and `NaN`
  (property extraction from a non-object yields `undefined`, and
  `Math.min` over such values yields `NaN`).  Both are collapsed into
  the `none` case of `JNum := Option ℚ`; every arithmetic operation,
  comparison and `Math.min`/`Math.max` treat `none` exactly as
  JavaScript treats `NaN`/`undefined` at those call sites.
* JavaScript `Map` objects are modelled as association lists; `set` is
  modelled by shadowing `cons` (lookups take the first, i.e. newest,
  binding, so lookups agree with `Map.set`/`Map.get`).
* Thrown JavaScript errors are modelled with `Except JsErr`.
-/

/-- Errors thrown by the embedded code.  The source throws plain
`Error` objects; the constructors name the messages: `modelNotTrained`
for the string Model not trained (model.js), `missingTarget` for the
missing-target message of `prepareTrainingDataFromCSV` (which carries
the requested symbol), `typeError` for a JavaScript `TypeError` from
indexing `undefined`.  `insufficientData` never escapes the embedded
code; it exists so the spec's claimed error taxonomy can be stated. -/
inductive JsErr where
  | typeError : JsErr
  | modelNotTrained : JsErr
  | missingTarget : String → JsErr
  | insufficientData : JsErr
deriving DecidableEq

/-- Association-list lookup, first (newest) binding wins; models
`Map.get` under the shadowing-cons model of `Map.set`. -/
def lookupA {β : Type} : List (String × β) → String → Option β
  | [], _ => none
  | (k, v) :: rest, key => if k = key then some v else lookupA rest key

/-- A candle record.  The source record also carries `date` and
`timestamp`, which none of the embedded operations read; the numeric
fields `open, high, low, close, volume` are kept (as `o h l c vol`,
since `open` is a Lean keyword). -/
structure Candle where
  o : ℚ
  h : ℚ
  l : ℚ
  c : ℚ
  vol : ℚ
deriving DecidableEq

/-- Stored min-max statistics `{min, max, range}` (dataProcessor.js). -/
structure NormParams where
  min : ℚ
  max : ℚ
  range : ℚ
deriving DecidableEq

/-- The `this.normalizers` map for the rational-valued windowing path. -/
abbrev NState := List (String × NormParams)

/-- Embeds `extractFeatures` (dataProcessor.js line 415): per candle the
feature vector `[open, high, low, close, volume / 1000000]`. -/
def extractFeatures (data : List Candle) : List (List ℚ) :=
  data.map fun item => [item.o, item.h, item.l, item.c, item.vol / 1000000]

/-- Embeds `Math.min(...)` over a list of rationals (nonempty intended; the
empty case, `Infinity` in JavaScript, is given the junk value 0 and is
never reached by the theorems). -/
def listMinQ : List ℚ → ℚ
  | [] => 0
  | x :: xs => xs.foldl min x

/-- Embeds `Math.max(...)` over a list of rationals (empty case junk 0). -/
def listMaxQ : List ℚ → ℚ
  | [] => 0
  | x :: xs => xs.foldl max x

/-- Helper for the minimum of a list of lengths (empty case junk 0). -/
def listMinN : List ℕ → ℕ
  | [] => 0
  | x :: xs => xs.foldl min x

/-- Embeds `minLength` (line 616): minimum series length over all
sources. -/
def minLengthOf (data : List (String × List Candle)) : ℕ :=
  listMinN (data.map fun p => p.2.length)

/-- The normalizer key `"{symbol}_dim{dim}"` (line 629). -/
def nKey (symbol : String) (dim : ℕ) : String :=
  symbol ++ "_dim" ++ toString dim

/-- The parameters computed on first sight of a key (lines 632-635):
min and max over `allValues = features.map(f => f[dim])`, and
`range = max - min || 1`. -/
def paramsFor (features : List (List ℚ)) (dim : ℕ) : NormParams :=
  let allValues := features.map fun f => f.getD dim 0
  let mn := listMinQ allValues
  let mx := listMaxQ allValues
  ⟨mn, mx, if mx - mn = 0 then 1 else mx - mn⟩

/-- One cell of the per-dimension normalization (lines 628-638): if the
key is absent the parameters are computed from the whole (truncated)
series and stored; the stored parameters are then applied. -/
def normCell (features : List (List ℚ)) (symbol : String) (s : NState)
    (dim : ℕ) (val : ℚ) : ℚ × NState :=
  let key := nKey symbol dim
  let s' := if (lookupA s key).isSome then s else (key, paramsFor features dim) :: s
  let p := (lookupA s' key).getD ⟨0, 0, 1⟩
  ((val - p.min) / p.range, s')

/-- Embeds `features[i].map((val, dim) => ...)` (line 628): normalize one row,
threading the normalizer map; `dim` is the running index. -/
def normRowAux (features : List (List ℚ)) (symbol : String) :
    ℕ → NState → List ℚ → List ℚ × NState
  | _, s, [] => ([], s)
  | dim, s, v :: rest =>
    let c := normCell features symbol s dim v
    let t := normRowAux features symbol (dim + 1) c.2 rest
    (c.1 :: t.1, t.2)

/-- The row loop of lines 627-641 over the feature rows. -/
def normRows (features : List (List ℚ)) (symbol : String) :
    NState → List (List ℚ) → List (List ℚ) × NState
  | s, [] => ([], s)
  | s, r :: rest =>
    let a := normRowAux features symbol 0 s r
    let t := normRows features symbol a.2 rest
    (a.1 :: t.1, t.2)

/-- The `sources.forEach` loop of lines 621-643: truncate each source to
`minLength`, extract features, normalize each dimension, producing the
`normalizedSources` map and the updated normalizer state. -/
def normSources (ml : ℕ) :
    NState → List (String × List Candle) → List (String × List (List ℚ)) × NState
  | s, [] => ([], s)
  | s, (symbol, data) :: rest =>
    let features := extractFeatures (data.take ml)
    let a := normRows features symbol s features
    let t := normSources ml a.2 rest
    ((symbol, a.1) :: t.1, t.2)

/-- Result record of `prepareTrainingData` (lines 677-683). -/
structure PrepResult where
  X : List (List (List ℚ))
  Y : List (List (List ℚ))
  sources : List String
  featureCount : ℕ
  normalizers : NState
deriving DecidableEq

/-- The sample-building loop of lines 651-670, input side: for each
sample `i` and offset `t < lookback` the concatenation, in source
order, of every source's normalized feature row at time `i + t`. -/
def buildX (ns : List (String × List (List ℚ))) (sources : List String)
    (count lookback : ℕ) : List (List (List ℚ)) :=
  (List.range count).map fun i =>
    (List.range lookback).map fun t =>
      sources.flatMap fun symbol => ((lookupA ns symbol).getD []).getD (i + t) []

/-- The sample-building loop, target side (lines 663-669): for each
sample `i` and offset `t < forecast` the first 4 entries (OHLC) of the
target's normalized row at time `i + lookback + t`. -/
def buildY (targetRows : List (List ℚ)) (count lookback forecast : ℕ) :
    List (List (List ℚ)) :=
  (List.range count).map fun i =>
    (List.range forecast).map fun t => (targetRows.getD (i + lookback + t) []).take 4

/-- Embeds `DataProcessor.prepareTrainingData` (lines 607-684).  The incoming
`s` is the `this.normalizers` state.  `totalSamples` is
`minLength - lookback - forecast` (an integer, possibly negative); the
sample loop runs `max 0 totalSamples` times, so a non-positive count
yields empty `X` and `Y` with no error.  When samples exist and the
target symbol is absent from the map, the source reads
`normalizedSources[targetSymbol][i + lookback + t]` on `undefined` and
throws a `TypeError`.  The caller must pass a non-empty map: on an
empty map the source computes `Math.min()` = `Infinity` and does not
terminate normally, which is outside this embedding. -/
def prepareTrainingData (data : List (String × List Candle)) (targetSymbol : String)
    (lookback forecast : ℕ) (s : NState) : Except JsErr PrepResult :=
  let sources := data.map Prod.fst
  let ml := minLengthOf data
  let ns := (normSources ml s data).1
  let s' := (normSources ml s data).2
  let totalSamples : ℤ := (ml : ℤ) - lookback - forecast
  if 0 < totalSamples then
    match lookupA ns targetSymbol with
    | none => .error .typeError
    | some targetRows =>
      .ok ⟨buildX ns sources totalSamples.toNat lookback,
           buildY targetRows totalSamples.toNat lookback forecast,
           sources, sources.length * 5, s'⟩
  else
    .ok ⟨[], [], sources, sources.length * 5, s'⟩

/-- Embeds `DataProcessor.prepareTrainingDataFromCSV` (lines 257-283): looks
the target up in the uploaded-CSV store (uppercased); a missing target
throws the missing-target error naming the requested symbol; missing
related symbols are skipped with a warning; the assembled map is handed
to `prepareTrainingData`. -/
def prepareTrainingDataFromCSV (csvData : List (String × List Candle))
    (targetSymbol : String) (relatedSymbols : List String)
    (lookback forecast : ℕ) (s : NState) : Except JsErr PrepResult :=
  match lookupA csvData targetSymbol.toUpper with
  | none => .error (.missingTarget targetSymbol)
  | some targetData =>
    let multi := (targetSymbol, targetData) ::
      relatedSymbols.filterMap fun sym =>
        (lookupA csvData sym.toUpper).map fun d => (sym, d)
    prepareTrainingData multi targetSymbol lookback forecast s

/-- Entries of `X` of a `prepareTrainingData` result (errors: none). -/
def prepX (e : Except JsErr PrepResult) : List (List (List ℚ)) :=
  match e with
  | .ok r => r.X
  | .error _ => []

/-- Entries of `Y` of a `prepareTrainingData` result (errors: none). -/
def prepY (e : Except JsErr PrepResult) : List (List (List ℚ)) :=
  match e with
  | .ok r => r.Y
  | .error _ => []

/-- The normalizer store a `prepareTrainingData` call leaves behind
(the source's `this.normalizers`, which persists on the
`DataProcessor` instance across calls; errors: empty). -/
def prepNorm (e : Except JsErr PrepResult) : NState :=
  match e with
  | .ok r => r.normalizers
  | .error _ => []

/-- Whether an embedded call returned without throwing. -/
def exceptOk {α : Type} (e : Except JsErr α) : Bool :=
  match e with
  | .ok _ => true
  | .error _ => false

/-- The thrown error of an embedded call, when there is one. -/
def errOf {α : Type} (e : Except JsErr α) : Option JsErr :=
  match e with
  | .ok _ => none
  | .error err => some err

/-! Section : The normalize / denormalize pair (dataProcessor.js lines 570-598)

JavaScript values reaching `normalize` are numbers or records; `JNum`
is a JavaScript number where `none` stands for `NaN` (and for
`undefined`, which behaves identically in every operation these
functions perform on it). -/

/-- A JavaScript number: `none` is `NaN`/`undefined`. -/
abbrev JNum := Option ℚ

/-- An element of the `data` argument of `normalize`: a plain number or
an object with numeric fields. -/
inductive JVal where
  | num : ℚ → JVal
  | obj : List (String × ℚ) → JVal
deriving DecidableEq

/-- Property access `d[key]`: on a non-object it yields `undefined`
(`none`); on an object, the field's value or `undefined`. -/
def getProp (v : JVal) (key : String) : JNum :=
  match v with
  | .num _ => none
  | .obj fields => lookupA fields key

/-- Coercion of a raw `data` element to a number, as performed by
`Math.min`/arithmetic when `key` is falsy: numbers pass through, plain
objects coerce to `NaN`. -/
def toNumJ (v : JVal) : JNum :=
  match v with
  | .num q => some q
  | .obj _ => none

/-- JavaScript subtraction: `NaN` (and `undefined`) poison. -/
def jsub (a b : JNum) : JNum :=
  match a, b with
  | some x, some y => some (x - y)
  | _, _ => none

/-- JavaScript addition with `NaN` poisoning. -/
def jadd (a b : JNum) : JNum :=
  match a, b with
  | some x, some y => some (x + y)
  | _, _ => none

/-- JavaScript multiplication with `NaN` poisoning. -/
def jmul (a b : JNum) : JNum :=
  match a, b with
  | some x, some y => some (x * y)
  | _, _ => none

/-- JavaScript division with `NaN` poisoning.  Division by zero
(`Infinity` in JavaScript) is unreachable at the one call site, where
the divisor has been replaced by 1 when it was 0 or `NaN`. -/
def jdiv (a b : JNum) : JNum :=
  match a, b with
  | some x, some y => some (x / y)
  | _, _ => none

/-- Embeds `Math.min(...values)`: `NaN` if any argument is `NaN`; the empty
case (`Infinity`) is given the junk value `none`, which no theorem
relies on. -/
def jsMinL : List JNum → JNum
  | [] => none
  | x :: xs => xs.foldl (fun acc y =>
      match acc, y with
      | some a, some b => some (min a b)
      | _, _ => none) x

/-- Embeds `Math.max(...values)` with the same conventions as `jsMinL`. -/
def jsMaxL : List JNum → JNum
  | [] => none
  | x :: xs => xs.foldl (fun acc y =>
      match acc, y with
      | some a, some b => some (max a b)
      | _, _ => none) x

/-- The `||`-guard of line 574: `max - min || 1` replaces a falsy
difference (`0` or `NaN`) by 1. -/
def orOne (x : JNum) : JNum :=
  match x with
  | none => some 1
  | some q => if q = 0 then some 1 else some q

/-- Truthiness of the `key` argument (`null` or a string): `null` and
the empty string are falsy. -/
def keyTruthy (key : Option String) : Bool :=
  match key with
  | none => false
  | some s => !s.isEmpty

/-- Embeds `key || 'default'` (lines 579 and 589). -/
def keyOrDefault (key : Option String) : String :=
  if keyTruthy key then key.getD "" else "default"

/-- Stored normalizer entry of the `normalize` path; `min`, `max` and
`range` may be `NaN`. -/
structure JParams where
  min : JNum
  max : JNum
  range : JNum
deriving DecidableEq

/-- The `this.normalizers` map as touched by `normalize`/`denormalize`. -/
abbrev JState := List (String × JParams)

/-- Line 571: the values `normalize` actually operates on — `data`
itself when `key` is falsy, otherwise each element's `key` property. -/
def extractedVals (data : List JVal) (key : Option String) : List JNum :=
  if keyTruthy key then data.map (fun d => getProp d (key.getD ""))
  else data.map toNumJ

namespace DataProcessor

/-- Embeds `DataProcessor.normalize` (lines 570-583): computes min, max and
`max - min || 1` over the extracted values, unconditionally stores them
under `key || 'default'`, and returns `(v - min) / range` per value. -/
def normalize (data : List JVal) (key : Option String) (s : JState) :
    List JNum × JState :=
  let values := extractedVals data key
  let mn := jsMinL values
  let mx := jsMaxL values
  let range := orOne (jsub mx mn)
  let normalized := values.map fun v => jdiv (jsub v mn) range
  (normalized, (keyOrDefault key, ⟨mn, mx, range⟩) :: s)

/-- Embeds `DataProcessor.denormalize` (lines 588-598): with no stored entry
for the key, returns the input unchanged; otherwise `v * range + min`
per value. -/
def denormalize (normalizedValues : List JNum) (key : Option String)
    (s : JState) : List JNum :=
  match lookupA s (keyOrDefault key) with
  | none => normalizedValues
  | some params => normalizedValues.map fun v => jadd (jmul v params.range) params.min

end DataProcessor

/-- One value within `1e-9` of a target; a `NaN` entry is within no
tolerance of anything. -/
def closeCell (x : JNum) (v : ℚ) : Prop :=
  match x with
  | none => False
  | some q => |q - v| ≤ 1 / 1000000000

instance (x : JNum) (v : ℚ) : Decidable (closeCell x v) :=
  match x with
  | none => isFalse fun hf => hf
  | some q => inferInstanceAs (Decidable (|q - v| ≤ 1 / 1000000000))

/-- Elementwise agreement within `1e-9`, the tolerance named by the
spec. -/
def withinTol (xs : List JNum) (vs : List ℚ) : Prop :=
  xs.length = vs.length ∧ ∀ i < vs.length, closeCell (xs.getD i none) (vs.getD i 0)

instance (xs : List JNum) (vs : List ℚ) : Decidable (withinTol xs vs) := by
  unfold withinTol
  infer_instance

/-! Section : Model lifecycle (model.js) -/

/-- The lifecycle-relevant state of an `SSMAttentionModel`:
`built` is `this.model !== null`, `trained` is `this.trained`. -/
structure ModelState where
  built : Bool
  trained : Bool
deriving DecidableEq

/-- Embeds the `SSMAttentionModel.predict` guards (lines 298-305): throws the
model-not-trained error when the model is unbuilt or untrained; the
forward pass itself is outside the embedding. -/
def predictGuard (m : ModelState) : Except JsErr Unit :=
  if !m.built then .error .modelNotTrained
  else if !m.trained then .error .modelNotTrained
  else .ok ()

/-- Embeds the `SSMAttentionModel.batchPredict` guard (line 333). -/
def batchPredictGuard (m : ModelState) : Except JsErr Unit :=
  if !m.built || !m.trained then .error .modelNotTrained
  else .ok ()

/-- Embeds `SSMAttentionModel.train` (lines 201-289) as a lifecycle step: an
unbuilt model is not rejected — lines 205-208 build it on the spot —
and on successful completion `onTrainEnd` sets `this.trained = true`.
The numeric fitting itself is outside the embedding; this is the state
transition of a `train` call that runs to completion. -/
def trainStep (m : ModelState) : Except JsErr ModelState :=
  let m1 := if m.built then m else { m with built := true }
  .ok { m1 with trained := true }

/-! Section : getSourceAttentionWeights (model.js lines 401-419) -/

/-- State read by `getSourceAttentionWeights`: the trained flag and the
loss of the last training-history entry (`none` when the history is
empty). -/
structure AttnState where
  trained : Bool
  lastLoss : Option ℚ
deriving DecidableEq

/-- Embeds `SSMAttentionModel.getSourceAttentionWeights`: untrained models get
the uniform distribution; trained models get pseudo-weights
`max(0.05, 1/n + sin(seed*(i+1)*10)*0.2)` normalized by their sum.
`Math.sin` is transcendental, so it enters the embedding as the
parameter `sine`; every theorem holds for an arbitrary `sine`, hence in
particular for the real one. -/
def getSourceAttentionWeights (sine : ℚ → ℚ) (m : AttnState)
    (sourceNames : List String) : List ℚ :=
  if !m.trained then sourceNames.map fun _ => 1 / sourceNames.length
  else
    let seed := m.lastLoss.getD (1 / 2)
    let weights := (List.range sourceNames.length).map fun i : ℕ =>
      max (1 / 20)
        (1 / (sourceNames.length : ℚ) + sine (seed * ((i : ℚ) + 1) * 10) * (1 / 5))
    let sum := weights.sum
    weights.map fun w => w / sum

/-! Section : calculateDirectionAccuracy (model.js lines 350-367) -/

/-- The per-cell comparison of lines 356-359:
`(p[3] > p[0]) === (a[3] > a[0])`. -/
def dirMatch (p a : List ℚ) : Bool :=
  (decide (p.getD 0 0 < p.getD 3 0)) == (decide (a.getD 0 0 < a.getD 3 0))

/-- The inner timestep loop: `(correct, total)` over one sample's
timesteps.  The source indexes `actuals[i][t]` by the prediction's
indices; an out-of-range access (which would throw in JavaScript) is
modelled by the empty row — all theorems keep shapes matched. -/
def dirRowCounts : List (List ℚ) → List (List ℚ) → ℕ × ℕ
  | [], _ => (0, 0)
  | p :: ps, aa =>
    let rest := dirRowCounts ps aa.tail
    ((if dirMatch p (aa.headD []) then 1 else 0) + rest.1, 1 + rest.2)

/-- The outer sample loop of `calculateDirectionAccuracy`. -/
def dirCounts : List (List (List ℚ)) → List (List (List ℚ)) → ℕ × ℕ
  | [], _ => (0, 0)
  | p :: ps, aa =>
    let here := dirRowCounts p (aa.headD [])
    let rest := dirCounts ps aa.tail
    (here.1 + rest.1, here.2 + rest.2)

/-- Embeds `SSMAttentionModel.calculateDirectionAccuracy`:
`total > 0 ? correct / total : 0`. -/
def calculateDirectionAccuracy (predictions actuals : List (List (List ℚ))) : ℚ :=
  let ct := dirCounts predictions actuals
  if 0 < ct.2 then (ct.1 : ℚ) / ct.2 else 0

/-- Three-valued sign, for the comparison the spec describes. -/
def signOf (q : ℚ) : ℤ :=
  if 0 < q then 1 else if q < 0 then -1 else 0

/-- Modelled from the spec: the claimed per-cell comparison, agreement
of `sign(close - open)` between prediction and actual — kept separate
from the source's boolean comparison `dirMatch` so the two can be
compared. -/
def specSignMatch (p a : List ℚ) : Bool :=
  signOf (p.getD 3 0 - p.getD 0 0) == signOf (a.getD 3 0 - a.getD 0 0)

/-- Modelled from the spec: the timestep loop of the claimed
sign-comparison direction accuracy. -/
def specSignRow : List (List ℚ) → List (List ℚ) → ℕ × ℕ
  | [], _ => (0, 0)
  | p :: ps, aa =>
    let rest := specSignRow ps aa.tail
    ((if specSignMatch p (aa.headD []) then 1 else 0) + rest.1, 1 + rest.2)

/-- Modelled from the spec: direction accuracy counting
`sign(close - open)` agreement, the claimed behaviour. -/
def specSignCounts : List (List (List ℚ)) → List (List (List ℚ)) → ℕ × ℕ
  | [], _ => (0, 0)
  | p :: ps, aa =>
    let here := specSignRow p (aa.headD [])
    let rest := specSignCounts ps aa.tail
    (here.1 + rest.1, here.2 + rest.2)

/-- Modelled from the spec: sign-comparison direction accuracy. -/
def specSignDirectionAccuracy (predictions actuals : List (List (List ℚ))) : ℚ :=
  let ct := specSignCounts predictions actuals
  if 0 < ct.2 then (ct.1 : ℚ) / ct.2 else 0

/-! Section : calculateCorrelation (model.js lines 372-396), over ℝ because
the source takes square roots. -/

/-- Embeds `array.flat(2)`: flatten two nesting levels. -/
def flat2 (l : List (List (List ℝ))) : List ℝ := l.flatten.flatten

/-- Embeds `diffPred` at loop index `i` (line 387): the source divides both
means by `n = predFlat.length`. -/
noncomputable def corrDiffP (pf : List ℝ) (i : ℕ) : ℝ :=
  pf.getD i 0 - pf.sum / pf.length

/-- Embeds `diffActual` at loop index `i` (line 388); `meanActual` also
divides by the prediction length. -/
noncomputable def corrDiffA (pf af : List ℝ) (i : ℕ) : ℝ :=
  af.getD i 0 - af.sum / pf.length

/-- The `numerator` accumulator of the loop (lines 386-392). -/
noncomputable def corrNum (pf af : List ℝ) : ℝ :=
  ∑ i ∈ Finset.range pf.length, corrDiffP pf i * corrDiffA pf af i

/-- The `denomPred` accumulator. -/
noncomputable def corrDenomP (pf : List ℝ) : ℝ :=
  ∑ i ∈ Finset.range pf.length, corrDiffP pf i * corrDiffP pf i

/-- The `denomActual` accumulator. -/
noncomputable def corrDenomA (pf af : List ℝ) : ℝ :=
  ∑ i ∈ Finset.range pf.length, corrDiffA pf af i * corrDiffA pf af i

/-- Embeds `SSMAttentionModel.calculateCorrelation`: flattens both inputs,
computes the Pearson quotient, and returns 0 when `n` is 0 or the
denominator `sqrt(denomPred) * sqrt(denomActual)` is not positive. -/
noncomputable def calculateCorrelation (predictions actuals : List (List (List ℝ))) : ℝ :=
  let pf := flat2 predictions
  let af := flat2 actuals
  if pf.length = 0 then 0
  else
    let denom := Real.sqrt (corrDenomP pf) * Real.sqrt (corrDenomA pf af)
    if 0 < denom then corrNum pf af / denom else 0

/-! Section : General helper lemmas -/

theorem lookupA_mem {β : Type} {l : List (String × β)} {k : String} {v : β}
    (h : lookupA l k = some v) : (k, v) ∈ l := by
  induction l with
  | nil => simp [lookupA] at h
  | cons p rest ih =>
    obtain ⟨k', v'⟩ := p
    by_cases hk : k' = k
    · subst hk
      simp [lookupA] at h
      simp [h]
    · simp [lookupA, hk] at h
      exact List.mem_cons_of_mem _ (ih h)

theorem lookupA_isSome_of_mem {β : Type} {l : List (String × β)} {k : String}
    (h : k ∈ l.map Prod.fst) : (lookupA l k).isSome := by
  induction l with
  | nil => simp at h
  | cons p rest ih =>
    obtain ⟨k', v'⟩ := p
    by_cases hk : k' = k
    · simp [lookupA, hk]
    · rw [List.map_cons] at h
      rcases List.mem_cons.mp h with h | h
      · exact absurd h.symm hk
      · simpa [lookupA, hk] using ih h

theorem sum_map_div (l : List ℚ) (d : ℚ) : (l.map fun x => x / d).sum = l.sum / d := by
  induction l with
  | nil => simp
  | cons a t ih => simp [ih, add_div]

theorem sum_pos_of_forall_le {l : List ℚ} (hne : l ≠ [])
    (h : ∀ x ∈ l, (1 : ℚ) / 20 ≤ x) : 0 < l.sum := by
  cases l with
  | nil => exact absurd rfl hne
  | cons a t =>
    have ha : (1 : ℚ) / 20 ≤ a := h a (List.mem_cons_self a t)
    have ht : 0 ≤ t.sum := List.sum_nonneg fun x hx =>
      le_trans (by norm_num) (h x (List.mem_cons_of_mem a hx))
    have : (0 : ℚ) < a := lt_of_lt_of_le (by norm_num) ha
    simpa using add_pos_of_pos_of_nonneg this ht

/-! Section : Claim C6 : model lifecycle -/

/-- Claim C6, amended: predict and batchPredict fail with the
model-not-trained error whenever the model is not in the Trained state
(unbuilt, or built but untrained); train, however, is not rejected on
an Unbuilt model — lines 205-208 of model.js build it automatically and
training proceeds, reaching the Trained state on successful
completion. -/
theorem C6_lifecycle (m : ModelState) :
    (m.built = false ∨ m.trained = false →
      predictGuard m = .error .modelNotTrained ∧
      batchPredictGuard m = .error .modelNotTrained) ∧
    trainStep m = .ok ⟨true, true⟩ := by
  obtain ⟨b, t⟩ := m
  cases b <;> cases t <;>
    simp [predictGuard, batchPredictGuard, trainStep]

theorem C6_lifecycle_witness :
    predictGuard ⟨false, false⟩ = .error .modelNotTrained ∧
    batchPredictGuard ⟨false, false⟩ = .error .modelNotTrained :=
  (C6_lifecycle ⟨false, false⟩).1 (Or.inl rfl)

/-- Claim C6, counterexample to the claim as stated: calling train on a
never-built model (Unbuilt) is not rejected — it succeeds and leaves
the model built and trained. -/
theorem C6_counterexample :
    trainStep ⟨false, false⟩ = .ok ⟨true, true⟩ := by
  simp [trainStep]

/-! Section : Claim C7 : source attention weights -/

/-- Claim C7: for every non-empty list of source names (and every
sine function standing in for Math.sin, and every model state), the
returned weights have length equal to the number of sources, are
non-negative, and sum to exactly 1 (hence within 1e-6); on an
untrained model they are the uniform distribution 1/n. -/
theorem C7_attention_weights (sine : ℚ → ℚ) (m : AttnState)
    (names : List String) (hne : names ≠ []) :
    (getSourceAttentionWeights sine m names).length = names.length ∧
    (∀ x ∈ getSourceAttentionWeights sine m names, 0 ≤ x) ∧
    (getSourceAttentionWeights sine m names).sum = 1 ∧
    (m.trained = false →
      getSourceAttentionWeights sine m names =
        names.map fun _ => 1 / (names.length : ℚ)) := by
  have hlen : (names.length : ℚ) ≠ 0 := by
    exact_mod_cast fun h => hne (List.length_eq_zero.mp (by exact_mod_cast h))
  by_cases ht : m.trained
  · simp only [getSourceAttentionWeights, ht, Bool.not_true, Bool.false_eq_true,
      if_false]
    set weights := (List.range names.length).map fun i : ℕ =>
      max (1 / 20)
        (1 / (names.length : ℚ) + sine (m.lastLoss.getD (1 / 2) * ((i : ℚ) + 1) * 10) * (1 / 5))
      with hw
    have hwlen : weights.length = names.length := by simp [hw]
    have hwlb : ∀ x ∈ weights, (1 : ℚ) / 20 ≤ x := by
      intro x hx
      rw [hw] at hx
      obtain ⟨i, _, rfl⟩ := List.mem_map.mp hx
      exact le_max_left _ _
    have hwne : weights ≠ [] := by
      intro h
      rw [h] at hwlen
      exact hne (List.length_eq_zero.mp hwlen.symm)
    have hpos : 0 < weights.sum := sum_pos_of_forall_le hwne hwlb
    refine ⟨by simp [hwlen], ?_, ?_, ?_⟩
    · intro x hx
      obtain ⟨w, hwmem, rfl⟩ := List.mem_map.mp hx
      exact div_nonneg (le_trans (by norm_num) (hwlb w hwmem)) hpos.le
    · rw [sum_map_div]
      exact div_self hpos.ne'
    · intro hcontra
      simp at hcontra
  · simp only [getSourceAttentionWeights, eq_false_of_ne_true ht, Bool.not_false, if_true]
    refine ⟨by simp, ?_, ?_, fun _ => by simp⟩
    · intro x hx
      obtain ⟨_, _, rfl⟩ := List.mem_map.mp hx
      positivity
    · rw [List.map_const']
      rw [List.sum_replicate, nsmul_eq_mul]
      exact mul_one_div_cancel hlen

theorem C7_attention_weights_witness :
    (getSourceAttentionWeights (fun _ => 0) ⟨false, none⟩ ["A", "B", "C"]).sum = 1 ∧
    (getSourceAttentionWeights (fun _ => 0) ⟨false, none⟩ ["A", "B", "C"]) =
      ["A", "B", "C"].map fun _ => 1 / ((3 : ℕ) : ℚ) := by
  have h := C7_attention_weights (fun _ => 0) ⟨false, none⟩ ["A", "B", "C"] (by simp)
  exact ⟨h.2.2.1, h.2.2.2 rfl⟩

/-! Section : Claim C8 : direction accuracy -/

theorem dirRowCounts_le (p a : List (List ℚ)) :
    (dirRowCounts p a).1 ≤ (dirRowCounts p a).2 := by
  induction p generalizing a with
  | nil => simp [dirRowCounts]
  | cons r rs ih =>
    simp only [dirRowCounts]
    have := ih a.tail
    split <;> omega

theorem dirCounts_le (p a : List (List (List ℚ))) :
    (dirCounts p a).1 ≤ (dirCounts p a).2 := by
  induction p generalizing a with
  | nil => simp [dirCounts]
  | cons r rs ih =>
    simp only [dirCounts]
    have h1 := dirRowCounts_le r (a.headD [])
    have h2 := ih a.tail
    omega

theorem dirRowCounts_self (p : List (List ℚ)) :
    (dirRowCounts p p).1 = (dirRowCounts p p).2 := by
  induction p with
  | nil => simp [dirRowCounts]
  | cons r rs ih =>
    simp only [dirRowCounts, List.headD_cons, List.tail_cons]
    have hm : dirMatch r r = true := by
      simp [dirMatch]
    simp only [hm, if_true]
    omega

theorem dirCounts_self (p : List (List (List ℚ))) :
    (dirCounts p p).1 = (dirCounts p p).2 := by
  induction p with
  | nil => simp [dirCounts]
  | cons r rs ih =>
    simp only [dirCounts, List.headD_cons, List.tail_cons]
    rw [dirRowCounts_self r]
    omega

/-- Claim C8, amended: calculateDirectionAccuracy compares the boolean
up-direction close > open between prediction and actual for every
sample and timestep (a tie close = open counts as not-up, so a flat
candle agrees with a down candle — not the three-valued
sign(close-open) agreement the claim describes); it returns
correct/total, which lies in [0,1]; a zero total yields 0; identical
predictions and actuals with at least one compared timestep yield
exactly 1. -/
theorem C8_direction_accuracy (preds acts : List (List (List ℚ))) :
    0 ≤ calculateDirectionAccuracy preds acts ∧
    calculateDirectionAccuracy preds acts ≤ 1 ∧
    ((dirCounts preds acts).2 = 0 → calculateDirectionAccuracy preds acts = 0) ∧
    (preds = acts → 0 < (dirCounts preds acts).2 →
      calculateDirectionAccuracy preds acts = 1) := by
  have hle := dirCounts_le preds acts
  by_cases hpos : 0 < (dirCounts preds acts).2
  · have htQ : (0 : ℚ) < ((dirCounts preds acts).2 : ℚ) := by exact_mod_cast hpos
    have hval : calculateDirectionAccuracy preds acts =
        ((dirCounts preds acts).1 : ℚ) / ((dirCounts preds acts).2 : ℚ) := by
      unfold calculateDirectionAccuracy
      exact if_pos hpos
    refine ⟨?_, ?_, ?_, ?_⟩
    · rw [hval]
      positivity
    · rw [hval, div_le_one htQ]
      exact_mod_cast hle
    · intro h
      omega
    · intro heq _
      subst heq
      rw [hval, dirCounts_self preds]
      exact div_self htQ.ne'
  · have hval : calculateDirectionAccuracy preds acts = 0 := by
      unfold calculateDirectionAccuracy
      exact if_neg hpos
    exact ⟨hval.ge, by rw [hval]; norm_num, fun _ => hval,
      fun _ h => absurd h hpos⟩

theorem C8_direction_accuracy_witness :
    0 < (dirCounts [[[(0:ℚ),0,0,1]]] [[[(0:ℚ),0,0,1]]]).2 ∧
    calculateDirectionAccuracy [[[(0:ℚ),0,0,1]]] [[[(0:ℚ),0,0,1]]] = 1 := by
  refine ⟨by simp [dirCounts, dirRowCounts], ?_⟩
  exact (C8_direction_accuracy [[[(0:ℚ),0,0,1]]] [[[(0:ℚ),0,0,1]]]).2.2.2 rfl
    (by simp [dirCounts, dirRowCounts])

/-- Claim C8, counterexample to the sign-comparison description: on a
flat predicted candle (close = open) against a down actual candle, the
source counts agreement (both directions are not-up) and returns 1,
while the claimed sign(close-open) comparison (sign 0 versus sign -1)
counts disagreement and would return 0. -/
theorem C8_counterexample :
    calculateDirectionAccuracy [[[(1:ℚ),0,0,1]]] [[[(1:ℚ),0,0,0]]] = 1 ∧
    specSignDirectionAccuracy [[[(1:ℚ),0,0,1]]] [[[(1:ℚ),0,0,0]]] = 0 := by
  constructor
  · simp [calculateDirectionAccuracy, dirCounts, dirRowCounts, dirMatch]
  · simp [specSignDirectionAccuracy, specSignCounts, specSignRow,
      specSignMatch, signOf]
    norm_num

/-! Section : Claim C3 : insufficient data -/

/-- When `minLength - lookback - forecast` is not positive, the sample
loop of `prepareTrainingData` runs zero times and the call returns
normally with empty `X` and `Y` (normalizers still computed). -/
theorem prep_nonpos (data : List (String × List Candle)) (target : String)
    (lb fc : ℕ) (s : NState)
    (h : (minLengthOf data : ℤ) - lb - fc ≤ 0) :
    prepareTrainingData data target lb fc s =
      .ok ⟨[], [], data.map Prod.fst, (data.map Prod.fst).length * 5,
        (normSources (minLengthOf data) s data).2⟩ := by
  simp only [prepareTrainingData]
  rw [if_neg (not_lt.2 h)]

/-- Claim C3, amended: when `minLength - lookback - forecast ≤ 0`,
`prepareTrainingData` does not raise an insufficient-data error — it
returns normally with zero samples (`X` and `Y` both empty); in
particular 3 sources of length 10 with lookback 30 and forecast 5
yield a normal result with 0 samples. -/
theorem C3_insufficient_data (data : List (String × List Candle)) (target : String)
    (lb fc : ℕ) (s : NState) (_hne : data ≠ [])
    (h : (minLengthOf data : ℤ) - lb - fc ≤ 0) :
    exceptOk (prepareTrainingData data target lb fc s) = true ∧
    prepX (prepareTrainingData data target lb fc s) = [] ∧
    prepY (prepareTrainingData data target lb fc s) = [] := by
  rw [prep_nonpos data target lb fc s h]
  exact ⟨rfl, rfl, rfl⟩

theorem C3_insufficient_data_witness :
    ([(("A" : String), List.replicate 5 (⟨1,1,1,1,1⟩ : Candle)),
      ("B", List.replicate 5 ⟨1,1,1,1,1⟩)] : List (String × List Candle)) ≠ [] ∧
    exceptOk (prepareTrainingData
      [("A", List.replicate 5 ⟨1,1,1,1,1⟩), ("B", List.replicate 5 ⟨1,1,1,1,1⟩)]
      "A" 4 1 []) = true := by
  refine ⟨by simp, ?_⟩
  exact (C3_insufficient_data _ "A" 4 1 [] (by simp) (by decide)).1

/-- Claim C3, counterexample to the claim as stated: 3 sources of
length 10 with lookback 30 and forecast 5 do not raise
InsufficientDataError — the call returns normally, with an empty
sample list. -/
theorem C3_counterexample :
    exceptOk (prepareTrainingData
      [("A", List.replicate 10 ⟨1,1,1,1,1⟩), ("B", List.replicate 10 ⟨1,1,1,1,1⟩),
       ("C", List.replicate 10 ⟨1,1,1,1,1⟩)] "A" 30 5 []) = true ∧
    prepX (prepareTrainingData
      [("A", List.replicate 10 ⟨1,1,1,1,1⟩), ("B", List.replicate 10 ⟨1,1,1,1,1⟩),
       ("C", List.replicate 10 ⟨1,1,1,1,1⟩)] "A" 30 5 []) = [] := by
  rw [prep_nonpos _ "A" 30 5 [] (by decide)]
  exact ⟨rfl, rfl⟩

/-! Section : Claim C4 : missing target -/

/-- Claim C4, amended: `prepareTrainingData` itself performs no
missing-target check (with samples to build it throws a TypeError from
indexing undefined, and with a non-positive sample count it returns
normally); the missing-target failure identifying the absent symbol is
raised by `prepareTrainingDataFromCSV`, whenever the requested target
is absent from the CSV store. -/
theorem C4_missing_target (csvData : List (String × List Candle))
    (target : String) (related : List String) (lb fc : ℕ) (s : NState)
    (h : lookupA csvData target.toUpper = none) :
    prepareTrainingDataFromCSV csvData target related lb fc s =
      .error (.missingTarget target) := by
  unfold prepareTrainingDataFromCSV
  rw [h]

theorem C4_missing_target_witness :
    prepareTrainingDataFromCSV [] "SPY" [] 1 1 [] = .error (.missingTarget "SPY") :=
  C4_missing_target [] "SPY" [] 1 1 [] rfl

/-- Claim C4, counterexample to the claim as stated: handing the window
builder a map without the requested target (here one source B, target
A, with a positive sample count) fails with a TypeError from indexing
undefined, not with a missing-target error identifying A. -/
theorem C4_counterexample :
    errOf (prepareTrainingData [("B", [⟨1,1,1,1,1⟩, ⟨1,1,1,1,1⟩, ⟨1,1,1,1,1⟩])]
      "A" 1 1 []) = some .typeError := by
  decide

/-! Section : Claim C1 : normalize / denormalize round trip -/

theorem foldl_optmin_isSome (g : ℚ → ℚ → ℚ) :
    ∀ (ys : List JNum) (acc : JNum), acc.isSome → (∀ y ∈ ys, y.isSome) →
      (ys.foldl (fun a y =>
        match a, y with
        | some a', some b' => some (g a' b')
        | _, _ => none) acc).isSome := by
  intro ys
  induction ys with
  | nil => intro acc ha _; exact ha
  | cons y ys ih =>
    intro acc ha hy
    obtain ⟨a, rfl⟩ := Option.isSome_iff_exists.mp ha
    obtain ⟨b, rfl⟩ := Option.isSome_iff_exists.mp (hy y (List.mem_cons_self _ _))
    exact ih _ (by simp) fun z hz => hy z (List.mem_cons_of_mem _ hz)

theorem jsMinL_isSome {l : List JNum} (hne : l ≠ []) (h : ∀ x ∈ l, x.isSome) :
    (jsMinL l).isSome := by
  cases l with
  | nil => exact absurd rfl hne
  | cons x xs =>
    simp only [jsMinL]
    exact foldl_optmin_isSome min xs x (h x (List.mem_cons_self _ _))
      fun z hz => h z (List.mem_cons_of_mem _ hz)

theorem jsMaxL_isSome {l : List JNum} (hne : l ≠ []) (h : ∀ x ∈ l, x.isSome) :
    (jsMaxL l).isSome := by
  cases l with
  | nil => exact absurd rfl hne
  | cons x xs =>
    simp only [jsMaxL]
    exact foldl_optmin_isSome max xs x (h x (List.mem_cons_self _ _))
      fun z hz => h z (List.mem_cons_of_mem _ hz)

theorem denormalize_nil (key : Option String) (s : JState) :
    DataProcessor.denormalize [] key s = [] := by
  unfold DataProcessor.denormalize
  cases lookupA s (keyOrDefault key) <;> simp

/-- Claim C1, amended: whenever every value `normalize` extracts from
its input is an actual number (in particular for any numeric sequence
with the key omitted — `null` — and for any record sequence whose `key`
field is numeric), denormalizing the normalized output under the same
key returns the extracted value sequence exactly, including the
constant-series case where range is replaced by 1.  For a plain
numeric sequence under a truthy key the claim fails, because
`normalize` then replaces each element by its (non-existent) `key`
property and produces NaN throughout — see the counterexample. -/
theorem C1_round_trip (data : List JVal) (key : Option String) (s : JState)
    (h : ∀ x ∈ extractedVals data key, x.isSome) :
    DataProcessor.denormalize (DataProcessor.normalize data key s).1 key
      (DataProcessor.normalize data key s).2 = extractedVals data key := by
  by_cases hne : extractedVals data key = []
  · simp only [DataProcessor.normalize, hne, List.map_nil]
    exact denormalize_nil key _
  · obtain ⟨m, hm⟩ := Option.isSome_iff_exists.mp (jsMinL_isSome hne h)
    obtain ⟨M, hM⟩ := Option.isSome_iff_exists.mp (jsMaxL_isSome hne h)
    have hrng : ∃ r : ℚ,
        orOne (jsub (jsMaxL (extractedVals data key)) (jsMinL (extractedVals data key))) =
          some r ∧ r ≠ 0 := by
      rw [hm, hM]
      by_cases hd : M - m = 0
      · exact ⟨1, by simp [jsub, orOne, hd], one_ne_zero⟩
      · exact ⟨M - m, by simp [jsub, orOne, hd], hd⟩
    obtain ⟨r, hr, hr0⟩ := hrng
    rw [hm, hM] at hr
    simp only [jsub] at hr
    simp only [DataProcessor.normalize, DataProcessor.denormalize, lookupA, if_pos]
    rw [List.map_map]
    conv_rhs => rw [← List.map_id (extractedVals data key)]
    apply List.map_congr_left
    intro v hv
    obtain ⟨q, rfl⟩ := Option.isSome_iff_exists.mp (h v hv)
    simp only [Function.comp, hm, hM, jsub, hr, jdiv, jmul, jadd, id_eq]
    rw [div_mul_cancel₀ _ hr0, sub_add_cancel]

theorem C1_round_trip_witness :
    (∀ x ∈ extractedVals [JVal.num 1, JVal.num 2] none, x.isSome) ∧
    DataProcessor.denormalize
      (DataProcessor.normalize [JVal.num 1, JVal.num 2] none []).1 none
      (DataProcessor.normalize [JVal.num 1, JVal.num 2] none []).2 =
      extractedVals [JVal.num 1, JVal.num 2] none :=
  ⟨by decide, C1_round_trip [JVal.num 1, JVal.num 2] none [] (by decide)⟩

/-- Claim C1, counterexample to the claim as stated: for the numeric
sequence [1, 2] and the key k, `normalize` maps each number to its
(non-existent) k property, yielding undefined values whose min and max
are NaN; the output and its denormalization are NaN throughout, so the
round trip does not return the input within 1e-9. -/
theorem C1_counterexample :
    ¬ withinTol
      (DataProcessor.denormalize
        (DataProcessor.normalize [JVal.num 1, JVal.num 2] (some "k") []).1 (some "k")
        (DataProcessor.normalize [JVal.num 1, JVal.num 2] (some "k") []).2)
      [1, 2] := by
  decide

/-! Section : Claim C5 : normalizer storage discipline -/

/-- Claim C5, amended: the storage discipline claimed for `normalize`
actually splits in two.  `normalize` itself always recomputes min, max
and range from its input and stores them under the key, overwriting any
previous entry (first conjunct: the stored entry after a call is the
one computed from that call's input, whatever was stored before).  The
store-only-if-absent, reuse-once-stored behaviour holds only for the
inline per-dimension normalization inside `prepareTrainingData`
(second conjunct: when the key is present, the cell reuses the stored
parameters and leaves the state unchanged). -/
theorem C5_normalizer_storage :
    (∀ (data : List JVal) (key : Option String) (s : JState),
      lookupA (DataProcessor.normalize data key s).2 (keyOrDefault key) =
        some ⟨jsMinL (extractedVals data key), jsMaxL (extractedVals data key),
          orOne (jsub (jsMaxL (extractedVals data key))
            (jsMinL (extractedVals data key)))⟩) ∧
    (∀ (features : List (List ℚ)) (symbol : String) (s : NState) (dim : ℕ)
      (val : ℚ) (p : NormParams),
      lookupA s (nKey symbol dim) = some p →
      normCell features symbol s dim val = ((val - p.min) / p.range, s)) := by
  constructor
  · intro data key s
    simp [DataProcessor.normalize, lookupA]
  · intro features symbol s dim val p hp
    simp [normCell, hp]

theorem C5_normalizer_storage_witness :
    normCell [[5]] "A" [(nKey "A" 0, ⟨0, 1, 1⟩)] 0 5 =
      ((5 - (0 : ℚ)) / 1, [(nKey "A" 0, ⟨0, 1, 1⟩)]) :=
  C5_normalizer_storage.2 [[5]] "A" [(nKey "A" 0, ⟨0, 1, 1⟩)] 0 5 ⟨0, 1, 1⟩
    (by simp [lookupA])

/-- Claim C5, counterexample to the claim as stated: after normalizing
the records with p values 0 and 2 under key p, a second `normalize`
call with the same key on records with p values 1 and 5 recomputes and
overwrites the stored entry (now min 1, max 5, range 4) instead of
reusing the stored min 0, max 2, range 2. -/
theorem C5_counterexample :
    lookupA (DataProcessor.normalize [JVal.obj [("p", 0)], JVal.obj [("p", 2)]]
        (some "p") []).2 "p" = some ⟨some 0, some 2, some 2⟩ ∧
    lookupA (DataProcessor.normalize [JVal.obj [("p", 1)], JVal.obj [("p", 5)]]
        (some "p")
        (DataProcessor.normalize [JVal.obj [("p", 0)], JVal.obj [("p", 2)]]
          (some "p") []).2).2 "p" = some ⟨some 1, some 5, some 4⟩ := by
  have hk : "p".isEmpty = false := by decide
  constructor <;>
  · simp only [DataProcessor.normalize, extractedVals, keyTruthy, keyOrDefault, getProp,
      lookupA, jsMinL, jsMaxL, jsub, orOne, hk, Bool.not_false, if_true, if_pos,
      Option.getD_some, List.map_cons, List.map_nil, List.foldl_cons, List.foldl_nil,
      min_def, max_def]
    norm_num

/-! Section : Claim C2 : window count and tensor shapes -/

theorem foldl_min_le_init {α : Type} [LinearOrder α] :
    ∀ (xs : List α) (a : α), xs.foldl min a ≤ a := by
  intro xs
  induction xs with
  | nil => intro a; exact le_refl a
  | cons x xs ih =>
    intro a
    exact le_trans (ih (min a x)) (min_le_left a x)

theorem foldl_min_le_mem {α : Type} [LinearOrder α] :
    ∀ (xs : List α) (a : α) (x : α), x ∈ xs → xs.foldl min a ≤ x := by
  intro xs
  induction xs with
  | nil => intro a x hx; simp at hx
  | cons y ys ih =>
    intro a x hx
    rcases List.mem_cons.mp hx with h | h
    · subst h
      exact le_trans (foldl_min_le_init ys (min a x)) (min_le_right a x)
    · exact ih (min a y) x h

theorem le_foldl_max_init {α : Type} [LinearOrder α] :
    ∀ (xs : List α) (a : α), a ≤ xs.foldl max a := by
  intro xs
  induction xs with
  | nil => intro a; exact le_refl a
  | cons x xs ih =>
    intro a
    exact le_trans (le_max_left a x) (ih (max a x))

theorem le_foldl_max_mem {α : Type} [LinearOrder α] :
    ∀ (xs : List α) (a : α) (x : α), x ∈ xs → x ≤ xs.foldl max a := by
  intro xs
  induction xs with
  | nil => intro a x hx; simp at hx
  | cons y ys ih =>
    intro a x hx
    rcases List.mem_cons.mp hx with h | h
    · subst h
      exact le_trans (le_max_right a x) (le_foldl_max_init ys (max a x))
    · exact ih (max a y) x h

theorem minLengthOf_le_of_mem {data : List (String × List Candle)}
    {sym : String} {d : List Candle} (h : (sym, d) ∈ data) :
    minLengthOf data ≤ d.length := by
  have hm : d.length ∈ data.map fun p => p.2.length :=
    List.mem_map.mpr ⟨(sym, d), h, rfl⟩
  unfold minLengthOf
  revert hm
  cases hc : data.map fun p => p.2.length with
  | nil => intro hm; simp at hm
  | cons x xs =>
    intro hm
    simp only [listMinN]
    rcases List.mem_cons.mp hm with h' | h'
    · exact h' ▸ foldl_min_le_init xs x
    · exact foldl_min_le_mem xs x _ h'

theorem normRowAux_len (f : List (List ℚ)) (sym : String) :
    ∀ (r : List ℚ) (dim : ℕ) (s : NState),
      (normRowAux f sym dim s r).1.length = r.length := by
  intro r
  induction r with
  | nil => intro dim s; rfl
  | cons v rest ih =>
    intro dim s
    simp only [normRowAux]
    simp [ih]

theorem normRows_len_map (f : List (List ℚ)) (sym : String) :
    ∀ (rs : List (List ℚ)) (s : NState),
      ((normRows f sym s rs).1).map List.length = rs.map List.length := by
  intro rs
  induction rs with
  | nil => intro s; rfl
  | cons r rest ih =>
    intro s
    simp only [normRows, List.map_cons]
    rw [normRowAux_len, ih]

theorem normSources_keys (ml : ℕ) :
    ∀ (data : List (String × List Candle)) (s : NState),
      ((normSources ml s data).1).map Prod.fst = data.map Prod.fst := by
  intro data
  induction data with
  | nil => intro s; rfl
  | cons p rest ih =>
    intro s
    obtain ⟨sym, d⟩ := p
    simp only [normSources, List.map_cons]
    rw [ih]

theorem normSources_lookup_shape (ml : ℕ) :
    ∀ (data : List (String × List Candle)) (s : NState) (sym : String)
      (rows : List (List ℚ)),
      lookupA (normSources ml s data).1 sym = some rows →
      ∃ d, lookupA data sym = some d ∧
        rows.map List.length = (extractFeatures (d.take ml)).map List.length := by
  intro data
  induction data with
  | nil => intro s sym rows h; simp [normSources, lookupA] at h
  | cons p rest ih =>
    intro s sym rows h
    obtain ⟨sym0, d0⟩ := p
    simp only [normSources, lookupA] at h
    by_cases he : sym0 = sym
    · rw [if_pos he] at h
      refine ⟨d0, by simp [lookupA, he], ?_⟩
      cases h
      exact normRows_len_map _ _ _ _
    · rw [if_neg he] at h
      obtain ⟨d, hd, hshape⟩ := ih _ sym rows h
      exact ⟨d, by simp [lookupA, he, hd], hshape⟩

theorem extractFeatures_row_len {x : List Candle} {r : List ℚ}
    (h : r ∈ extractFeatures x) : r.length = 5 := by
  obtain ⟨c, _, rfl⟩ := List.mem_map.mp h
  rfl

theorem rows_shape_of_map_len {rows : List (List ℚ)} {x : List Candle}
    (h : rows.map List.length = (extractFeatures x).map List.length) :
    rows.length = x.length ∧ ∀ r ∈ rows, r.length = 5 := by
  constructor
  · have := congrArg List.length h
    simpa [extractFeatures] using this
  · intro r hr
    have : r.length ∈ rows.map List.length := List.mem_map.mpr ⟨r, hr, rfl⟩
    rw [h] at this
    obtain ⟨r', hr', he⟩ := List.mem_map.mp this
    rw [← he]
    exact extractFeatures_row_len hr'

/-- Entry shapes of the `normalizedSources` map: the looked-up series
has `minLength` rows, each of width 5. -/
theorem ns_lookup_shape {data : List (String × List Candle)} {s : NState}
    {sym : String} {rows : List (List ℚ)}
    (h : lookupA (normSources (minLengthOf data) s data).1 sym = some rows) :
    rows.length = minLengthOf data ∧ ∀ r ∈ rows, r.length = 5 := by
  obtain ⟨d, hd, hshape⟩ := normSources_lookup_shape (minLengthOf data) data s sym rows h
  obtain ⟨hlen, hrow⟩ := rows_shape_of_map_len hshape
  refine ⟨?_, hrow⟩
  rw [hlen, List.length_take]
  exact min_eq_left (minLengthOf_le_of_mem (lookupA_mem hd))

theorem flatMap_len_const {f : String → List ℚ} :
    ∀ (l : List String), (∀ x ∈ l, (f x).length = 5) →
      (l.flatMap f).length = l.length * 5 := by
  intro l
  induction l with
  | nil => intro _; rfl
  | cons x xs ih =>
    intro h
    rw [List.flatMap_cons, List.length_append, h x (List.mem_cons_self _ _),
      ih fun y hy => h y (List.mem_cons_of_mem _ hy)]
    simp only [List.length_cons]
    ring

/-- Reduction of `prepareTrainingData` in the successful case: positive
sample count and target present. -/
theorem prep_pos_target (data : List (String × List Candle)) (target : String)
    (lb fc : ℕ) (s : NState)
    (hpos : 0 < (minLengthOf data : ℤ) - lb - fc)
    {targetRows : List (List ℚ)}
    (htr : lookupA (normSources (minLengthOf data) s data).1 target = some targetRows) :
    prepareTrainingData data target lb fc s =
      .ok ⟨buildX (normSources (minLengthOf data) s data).1 (data.map Prod.fst)
            ((minLengthOf data : ℤ) - lb - fc).toNat lb,
           buildY targetRows ((minLengthOf data : ℤ) - lb - fc).toNat lb fc,
           data.map Prod.fst, (data.map Prod.fst).length * 5,
           (normSources (minLengthOf data) s data).2⟩ := by
  simp only [prepareTrainingData]
  rw [if_pos hpos, htr]

/-- Claim C2: with the target present, distinct source names and a
positive sample count, `prepareTrainingData` succeeds and produces
exactly `minLength - lookback - forecast` samples, each `X[i]` of shape
`[lookback, numSources * 5]` and each `Y[i]` of shape `[forecast, 4]`
(the 3-sources-of-200, lookback 30, forecast 5 instance of the claim is
the witness). -/
theorem C2_window_shapes (data : List (String × List Candle)) (target : String)
    (lb fc : ℕ) (s : NState)
    (htgt : target ∈ data.map Prod.fst)
    (hpos : 0 < (minLengthOf data : ℤ) - lb - fc) :
    exceptOk (prepareTrainingData data target lb fc s) = true ∧
    (prepX (prepareTrainingData data target lb fc s)).length =
      ((minLengthOf data : ℤ) - lb - fc).toNat ∧
    (∀ plane ∈ prepX (prepareTrainingData data target lb fc s),
      plane.length = lb ∧ ∀ row ∈ plane, row.length = data.length * 5) ∧
    (prepY (prepareTrainingData data target lb fc s)).length =
      ((minLengthOf data : ℤ) - lb - fc).toNat ∧
    (∀ plane ∈ prepY (prepareTrainingData data target lb fc s),
      plane.length = fc ∧ ∀ row ∈ plane, row.length = 4) := by
  have htgt' : target ∈ ((normSources (minLengthOf data) s data).1).map Prod.fst := by
    rw [normSources_keys]
    exact htgt
  obtain ⟨targetRows, htr⟩ :=
    Option.isSome_iff_exists.mp (lookupA_isSome_of_mem htgt')
  rw [prep_pos_target data target lb fc s hpos htr]
  obtain ⟨htlen, _⟩ := ns_lookup_shape htr
  set ml := minLengthOf data with hml
  set cnt := ((ml : ℤ) - lb - fc).toNat with hcnt
  have hcnt' : (cnt : ℤ) = (ml : ℤ) - lb - fc := by
    rw [hcnt]
    omega
  refine ⟨rfl, by simp [prepX, buildX], ?_, by simp [prepY, buildY], ?_⟩
  · intro plane hplane
    simp only [prepX, buildX] at hplane
    obtain ⟨i, hi, rfl⟩ := List.mem_map.mp hplane
    rw [List.mem_range] at hi
    refine ⟨by simp, ?_⟩
    intro row hrow
    obtain ⟨t, ht, rfl⟩ := List.mem_map.mp hrow
    rw [List.mem_range] at ht
    have hw : (data.map Prod.fst).length = data.length := by simp
    rw [← hw]
    apply flatMap_len_const
    intro sym hsym
    have hsym' : sym ∈ ((normSources ml s data).1).map Prod.fst := by
      rw [normSources_keys]
      exact hsym
    obtain ⟨rows, hrows⟩ := Option.isSome_iff_exists.mp (lookupA_isSome_of_mem hsym')
    obtain ⟨hrlen, hrw⟩ := ns_lookup_shape hrows
    rw [hrows]
    simp only [Option.getD_some]
    have hidx : i + t < rows.length := by
      rw [hrlen]
      omega
    rw [List.getD_eq_getElem _ _ hidx]
    exact hrw _ (List.getElem_mem hidx)
  · intro plane hplane
    simp only [prepY, buildY] at hplane
    obtain ⟨i, hi, rfl⟩ := List.mem_map.mp hplane
    rw [List.mem_range] at hi
    refine ⟨by simp, ?_⟩
    intro row hrow
    obtain ⟨t, ht, rfl⟩ := List.mem_map.mp hrow
    rw [List.mem_range] at ht
    have hidx : i + lb + t < targetRows.length := by
      rw [htlen]
      omega
    rw [List.getD_eq_getElem _ _ hidx, List.length_take]
    have h5 := (ns_lookup_shape htr).2 _ (List.getElem_mem hidx)
    rw [h5]
    omega

set_option maxRecDepth 40000 in
theorem C2_window_shapes_witness :
    "SPY" ∈ ([("SPY", List.replicate 200 (⟨1,1,1,1,1⟩ : Candle)),
      ("VIX", List.replicate 200 ⟨1,1,1,1,1⟩),
      ("TLT", List.replicate 200 ⟨1,1,1,1,1⟩)].map Prod.fst) ∧
    (prepX (prepareTrainingData
      [("SPY", List.replicate 200 ⟨1,1,1,1,1⟩), ("VIX", List.replicate 200 ⟨1,1,1,1,1⟩),
       ("TLT", List.replicate 200 ⟨1,1,1,1,1⟩)] "SPY" 30 5 [])).length = 165 ∧
    (∀ plane ∈ prepX (prepareTrainingData
      [("SPY", List.replicate 200 ⟨1,1,1,1,1⟩), ("VIX", List.replicate 200 ⟨1,1,1,1,1⟩),
       ("TLT", List.replicate 200 ⟨1,1,1,1,1⟩)] "SPY" 30 5 []),
      plane.length = 30 ∧ ∀ row ∈ plane, row.length = 15) ∧
    (∀ plane ∈ prepY (prepareTrainingData
      [("SPY", List.replicate 200 ⟨1,1,1,1,1⟩), ("VIX", List.replicate 200 ⟨1,1,1,1,1⟩),
       ("TLT", List.replicate 200 ⟨1,1,1,1,1⟩)] "SPY" 30 5 []),
      plane.length = 5 ∧ ∀ row ∈ plane, row.length = 4) := by
  have h := C2_window_shapes
    [("SPY", List.replicate 200 ⟨1,1,1,1,1⟩), ("VIX", List.replicate 200 ⟨1,1,1,1,1⟩),
     ("TLT", List.replicate 200 ⟨1,1,1,1,1⟩)] "SPY" 30 5 []
    (by decide) (by decide)
  refine ⟨by decide, ?_, ?_, ?_⟩
  · rw [h.2.1]
    decide
  · intro plane hplane
    have := h.2.2.1 plane hplane
    simpa using this
  · exact h.2.2.2.2

/-! Section : Claim C10 : normalized entries lie in the unit interval -/

theorem listMinQ_le {l : List ℚ} {x : ℚ} (h : x ∈ l) : listMinQ l ≤ x := by
  cases l with
  | nil => simp at h
  | cons y ys =>
    simp only [listMinQ]
    rcases List.mem_cons.mp h with h' | h'
    · exact h' ▸ foldl_min_le_init ys y
    · exact foldl_min_le_mem ys y x h'

theorem le_listMaxQ {l : List ℚ} {x : ℚ} (h : x ∈ l) : x ≤ listMaxQ l := by
  cases l with
  | nil => simp at h
  | cons y ys =>
    simp only [listMaxQ]
    rcases List.mem_cons.mp h with h' | h'
    · exact h' ▸ le_foldl_max_init ys y
    · exact le_foldl_max_mem ys y x h'

/-- The interpolation stored-and-applied by the inline normalization
maps any value of the series into the unit interval (a constant series
maps to 0 because range is replaced by 1). -/
theorem pnorm_bound {f : List (List ℚ)} {dim : ℕ} {v : ℚ}
    (hv : v ∈ f.map fun r => r.getD dim 0) :
    0 ≤ (v - (paramsFor f dim).min) / (paramsFor f dim).range ∧
    (v - (paramsFor f dim).min) / (paramsFor f dim).range ≤ 1 := by
  have hmn : listMinQ (f.map fun r => r.getD dim 0) ≤ v := listMinQ_le hv
  have hmx : v ≤ listMaxQ (f.map fun r => r.getD dim 0) := le_listMaxQ hv
  simp only [paramsFor]
  by_cases hd : listMaxQ (f.map fun r => r.getD dim 0) -
      listMinQ (f.map fun r => r.getD dim 0) = 0
  · rw [if_pos hd]
    have hveq : v = listMinQ (f.map fun r => r.getD dim 0) :=
      le_antisymm (by linarith) hmn
    rw [hveq]
    norm_num
  · rw [if_neg hd]
    have hrpos : 0 < listMaxQ (f.map fun r => r.getD dim 0) -
        listMinQ (f.map fun r => r.getD dim 0) :=
      lt_of_le_of_ne (by linarith) (Ne.symm hd)
    constructor
    · apply div_nonneg _ hrpos.le
      linarith
    · rw [div_le_one hrpos]
      linarith

/-- Injectivity of the interpolated normalizer keys for single-digit
dimension indices (the source only uses dimensions 0 through 4). -/
theorem nKey_inj {s1 s2 : String} {d1 d2 : ℕ} (h1 : d1 < 10) (h2 : d2 < 10)
    (h : nKey s1 d1 = nKey s2 d2) : s1 = s2 ∧ d1 = d2 := by
  have hdata : (s1.data ++ "_dim".data) ++ (toString d1).data =
      (s2.data ++ "_dim".data) ++ (toString d2).data := by
    have hc := congrArg String.data h
    simpa [nKey, String.data_append] using hc
  have hlen : (toString d1).data.length = (toString d2).data.length := by
    have l1 : (toString d1).data.length = 1 := by interval_cases d1 <;> decide
    have l2 : (toString d2).data.length = 1 := by interval_cases d2 <;> decide
    rw [l1, l2]
  obtain ⟨hpre, hsuf⟩ := List.append_inj' hdata hlen
  constructor
  · exact String.ext (List.append_inj' hpre rfl).1
  · interval_cases d1 <;> interval_cases d2 <;> revert hsuf <;> decide

/-- Invariant on the normalizer state while one source is processed:
every stored key of this source holds exactly the parameters computed
from this source's (truncated) feature series. -/
def SymGood (f : List (List ℚ)) (sym : String) (s : NState) : Prop :=
  ∀ dim < 10, lookupA s (nKey sym dim) = none ∨
    lookupA s (nKey sym dim) = some (paramsFor f dim)

theorem normCell_good {f : List (List ℚ)} {sym : String} {s : NState}
    {dim : ℕ} {v : ℚ} (hdim : dim < 10) (hs : SymGood f sym s) :
    (normCell f sym s dim v).1 =
      (v - (paramsFor f dim).min) / (paramsFor f dim).range ∧
    SymGood f sym (normCell f sym s dim v).2 ∧
    (∀ k, (∀ d < 10, k ≠ nKey sym d) →
      lookupA (normCell f sym s dim v).2 k = lookupA s k) := by
  rcases hs dim hdim with hc | hc
  · have hn : (lookupA s (nKey sym dim)).isSome = false := by rw [hc]; rfl
    refine ⟨by simp [normCell, hn, lookupA], ?_, ?_⟩
    · intro d hd
      simp only [normCell, hn, Bool.false_eq_true, if_false]
      by_cases he : nKey sym dim = nKey sym d
      · have hdd : d = dim := ((nKey_inj hdim hd he).2).symm
        subst hdd
        right
        simp [lookupA]
      · rw [show lookupA ((nKey sym dim, paramsFor f dim) :: s) (nKey sym d) =
            lookupA s (nKey sym d) from by simp [lookupA, he]]
        exact hs d hd
    · intro k hk
      have hne : nKey sym dim ≠ k := fun he => hk dim hdim he.symm
      simp [normCell, hn, lookupA, hne]
  · have hsome : (lookupA s (nKey sym dim)).isSome = true := by rw [hc]; rfl
    refine ⟨by simp [normCell, hsome, hc], ?_, ?_⟩
    · simpa [normCell, hsome] using hs
    · intro k _
      simp [normCell, hsome]

theorem normRowAux_good {f : List (List ℚ)} {sym : String} :
    ∀ (r : List ℚ) (dim : ℕ) (s : NState) (r0 : List ℚ),
      r0 ∈ f → r0.drop dim = r → dim + r.length ≤ 10 → SymGood f sym s →
      (∀ q ∈ (normRowAux f sym dim s r).1, 0 ≤ q ∧ q ≤ 1) ∧
      SymGood f sym (normRowAux f sym dim s r).2 ∧
      (∀ k, (∀ d < 10, k ≠ nKey sym d) →
        lookupA (normRowAux f sym dim s r).2 k = lookupA s k) := by
  intro r
  induction r with
  | nil =>
    intro dim s r0 _ _ _ hs
    exact ⟨by simp [normRowAux], hs, fun k _ => rfl⟩
  | cons v rest ih =>
    intro dim s r0 hr0 hdrop hlen hs
    have hdim : dim < 10 := by
      simp only [List.length_cons] at hlen
      omega
    obtain ⟨hval, hgood, hframe⟩ := @normCell_good f sym s dim v hdim hs
    have hv0 : r0.getD dim 0 = v := by
      have h0 := List.getElem?_drop r0 dim 0
      rw [hdrop] at h0
      have hsome : r0[dim]? = some v := by
        simpa using h0.symm
      simp [List.getD, hsome]
    have hvmem : v ∈ f.map fun rr => rr.getD dim 0 :=
      List.mem_map.mpr ⟨r0, hr0, hv0⟩
    have hbound := pnorm_bound hvmem
    have hdrop' : r0.drop (dim + 1) = rest := by
      rw [← List.tail_drop, hdrop]
      rfl
    have hlen' : dim + 1 + rest.length ≤ 10 := by
      simp only [List.length_cons] at hlen
      omega
    obtain ⟨ihb, ihg, ihframe⟩ :=
      ih (dim + 1) (normCell f sym s dim v).2 r0 hr0 hdrop' hlen' hgood
    refine ⟨?_, ihg, ?_⟩
    · intro q hq
      simp only [normRowAux] at hq
      rcases List.mem_cons.mp hq with h | h
      · rw [h, hval]
        exact hbound
      · exact ihb q h
    · intro k hk
      simp only [normRowAux]
      rw [ihframe k hk, hframe k hk]

theorem normRows_good {f : List (List ℚ)} {sym : String} :
    ∀ (rs : List (List ℚ)) (s : NState),
      (∀ r ∈ rs, r ∈ f) → (∀ r ∈ rs, r.length ≤ 10) → SymGood f sym s →
      (∀ row ∈ (normRows f sym s rs).1, ∀ q ∈ row, 0 ≤ q ∧ q ≤ 1) ∧
      SymGood f sym (normRows f sym s rs).2 ∧
      (∀ k, (∀ d < 10, k ≠ nKey sym d) →
        lookupA (normRows f sym s rs).2 k = lookupA s k) := by
  intro rs
  induction rs with
  | nil =>
    intro s _ _ hs
    exact ⟨by simp [normRows], hs, fun k _ => rfl⟩
  | cons r rest ih =>
    intro s hmem hlen hs
    obtain ⟨hb, hg, hframe⟩ := normRowAux_good r 0 s r
      (hmem r (List.mem_cons_self _ _)) (by simp)
      (by simpa using hlen r (List.mem_cons_self _ _)) hs
    obtain ⟨ihb, ihg, ihframe⟩ := ih (normRowAux f sym 0 s r).2
      (fun x hx => hmem x (List.mem_cons_of_mem _ hx))
      (fun x hx => hlen x (List.mem_cons_of_mem _ hx)) hg
    refine ⟨?_, ihg, ?_⟩
    · intro row hrow
      simp only [normRows] at hrow
      rcases List.mem_cons.mp hrow with h | h
      · exact h ▸ hb
      · exact ihb row h
    · intro k hk
      simp only [normRows]
      rw [ihframe k hk, hframe k hk]

/-- Absence of a source's normalizer keys from the incoming state. -/
def NoKeys (sym : String) (s : NState) : Prop :=
  ∀ d < 10, lookupA s (nKey sym d) = none

theorem normSources_good (ml : ℕ) :
    ∀ (data : List (String × List Candle)) (s : NState),
      (data.map Prod.fst).Nodup → (∀ p ∈ data, NoKeys p.1 s) →
      ∀ entry ∈ (normSources ml s data).1, ∀ row ∈ entry.2,
        ∀ q ∈ row, 0 ≤ q ∧ q ≤ 1 := by
  intro data
  induction data with
  | nil =>
    intro s _ _ entry hentry
    simp [normSources] at hentry
  | cons p rest ih =>
    intro s hnd hnk entry hentry
    obtain ⟨sym, d⟩ := p
    have hgood0 : SymGood (extractFeatures (d.take ml)) sym s := by
      intro dim hdim
      exact Or.inl (hnk (sym, d) (List.mem_cons_self _ _) dim hdim)
    obtain ⟨hb, _, hframe⟩ :=
      @normRows_good (extractFeatures (d.take ml)) sym
        (extractFeatures (d.take ml)) s (fun r hr => hr)
        (fun r hr => by rw [extractFeatures_row_len hr]; omega) hgood0
    simp only [normSources] at hentry
    rcases List.mem_cons.mp hentry with h | h
    · subst h
      exact hb
    · have hndr : (rest.map Prod.fst).Nodup := by
        simp only [List.map_cons, List.nodup_cons] at hnd
        exact hnd.2
      have hsym_not : sym ∉ rest.map Prod.fst := by
        simp only [List.map_cons, List.nodup_cons] at hnd
        exact hnd.1
      have hnk' : ∀ p' ∈ rest, NoKeys p'.1
          (normRows (extractFeatures (d.take ml)) sym s
            (extractFeatures (d.take ml))).2 := by
        intro p' hp' dd hdd
        have hdiff : ∀ e < 10, nKey p'.1 dd ≠ nKey sym e := by
          intro e he hcontra
          have := (nKey_inj hdd he hcontra).1
          exact hsym_not (this ▸ List.mem_map.mpr ⟨p', hp', rfl⟩)
        rw [hframe _ hdiff]
        exact hnk p' (List.mem_cons_of_mem _ hp') dd hdd
      exact ih _ hndr hnk' entry h

/-- Reduction of `prepareTrainingData` when the sample count is
positive but the target is absent: the TypeError branch. -/
theorem prep_pos_notarget (data : List (String × List Candle)) (target : String)
    (lb fc : ℕ) (s : NState)
    (hpos : 0 < (minLengthOf data : ℤ) - lb - fc)
    (hlook : lookupA (normSources (minLengthOf data) s data).1 target = none) :
    prepareTrainingData data target lb fc s = .error .typeError := by
  simp only [prepareTrainingData]
  rw [if_pos hpos, hlook]

/-- Claim C10, amended: the unit-interval bound holds for the first
`prepareTrainingData` call of a session — starting from an empty
normalizer store (and with distinct source names, as JavaScript object
keys necessarily are), every numeric entry of X and of Y lies in the
closed unit interval, because every feature dimension is min-max
normalized with the minimum and maximum of the same truncated series
the windowed values are drawn from (range 1 for a constant series,
giving 0).  Unconditionally the claim is false: `this.normalizers`
persists on the `DataProcessor` across calls and is never cleared, so
a later call whose data exceeds the stored min/max reuses the stale
parameters through the line-630 has-check and produces entries outside
[0, 1] — see the counterexample. -/
theorem C10_normalized_bounds (data : List (String × List Candle))
    (target : String) (lb fc : ℕ) (_hne : data ≠ [])
    (hnd : (data.map Prod.fst).Nodup) :
    (∀ plane ∈ prepX (prepareTrainingData data target lb fc []),
      ∀ row ∈ plane, ∀ q ∈ row, 0 ≤ q ∧ q ≤ 1) ∧
    (∀ plane ∈ prepY (prepareTrainingData data target lb fc []),
      ∀ row ∈ plane, ∀ q ∈ row, 0 ≤ q ∧ q ≤ 1) := by
  have hmain : ∀ sym rows, lookupA (normSources (minLengthOf data) [] data).1 sym =
      some rows → ∀ row ∈ rows, ∀ q ∈ row, 0 ≤ q ∧ q ≤ 1 := by
    intro sym rows hlook
    exact normSources_good (minLengthOf data) data [] hnd
      (fun p _ d _ => rfl) (sym, rows) (lookupA_mem hlook)
  have hrowsq : ∀ (rows : List (List ℚ)) (idx : ℕ),
      (∀ row ∈ rows, ∀ q ∈ row, 0 ≤ q ∧ q ≤ 1) →
      ∀ q ∈ rows.getD idx [], 0 ≤ q ∧ q ≤ 1 := by
    intro rows idx hrows q hq
    by_cases hidx : idx < rows.length
    · rw [List.getD_eq_getElem _ _ hidx] at hq
      exact hrows _ (List.getElem_mem hidx) q hq
    · rw [List.getD_eq_default _ _ (le_of_not_lt hidx)] at hq
      simp at hq
  by_cases hpos : 0 < (minLengthOf data : ℤ) - lb - fc
  · cases hlook : lookupA (normSources (minLengthOf data) [] data).1 target with
    | none =>
      rw [prep_pos_notarget data target lb fc [] hpos hlook]
      exact ⟨fun plane h => by simp [prepX] at h, fun plane h => by simp [prepY] at h⟩
    | some targetRows =>
      rw [prep_pos_target data target lb fc [] hpos hlook]
      constructor
      · intro plane hplane row hrow q hq
        simp only [prepX, buildX] at hplane
        obtain ⟨i, _, rfl⟩ := List.mem_map.mp hplane
        obtain ⟨t, _, rfl⟩ := List.mem_map.mp hrow
        obtain ⟨sym, _, hq'⟩ := List.mem_flatMap.mp hq
        cases hl : lookupA (normSources (minLengthOf data) [] data).1 sym with
        | none =>
          rw [hl] at hq'
          simp at hq'
        | some rows =>
          rw [hl] at hq'
          simp only [Option.getD_some] at hq'
          exact hrowsq rows (i + t) (hmain sym rows hl) q hq'
      · intro plane hplane row hrow q hq
        simp only [prepY, buildY] at hplane
        obtain ⟨i, _, rfl⟩ := List.mem_map.mp hplane
        obtain ⟨t, _, rfl⟩ := List.mem_map.mp hrow
        have hq' : q ∈ targetRows.getD (i + lb + t) [] :=
          List.mem_of_mem_take hq
        exact hrowsq targetRows (i + lb + t) (hmain target targetRows hlook) q hq'
  · rw [prep_nonpos data target lb fc [] (le_of_not_lt hpos)]
    exact ⟨fun plane h => by simp [prepX] at h, fun plane h => by simp [prepY] at h⟩

theorem C10_normalized_bounds_witness :
    ([(("A" : String), [(⟨1,2,0,1,1000000⟩ : Candle), ⟨2,3,1,2,2000000⟩,
      ⟨3,4,2,3,3000000⟩])] : List (String × List Candle)) ≠ [] ∧
    (∀ plane ∈ prepX (prepareTrainingData
        [("A", [⟨1,2,0,1,1000000⟩, ⟨2,3,1,2,2000000⟩, ⟨3,4,2,3,3000000⟩])] "A" 1 1 []),
      ∀ row ∈ plane, ∀ q ∈ row, 0 ≤ q ∧ q ≤ 1) := by
  refine ⟨by simp, ?_⟩
  exact (C10_normalized_bounds
    [("A", [⟨1,2,0,1,1000000⟩, ⟨2,3,1,2,2000000⟩, ⟨3,4,2,3,3000000⟩])] "A" 1 1
    (by simp) (by simp)).1

set_option maxHeartbeats 2000000 in
/-- Claim C10, counterexample to the claim as stated: the normalizer
store persists across `prepareTrainingData` calls.  A first call on
source A with values 1, 3, 1 stores min 1, max 3, range 2 for every
dimension; a second call on the same `DataProcessor` with values
1, 9, 1 reuses those stale parameters through the has-check, so its Y
tensor is [[[4, 4, 4, 4]]] (since (9 - 1) / 2 = 4) — an entry outside
the claimed interval [0, 1]. -/
theorem C10_counterexample :
    prepY (prepareTrainingData
      [("A", [⟨1,1,1,1,1000000⟩, ⟨9,9,9,9,9000000⟩, ⟨1,1,1,1,1000000⟩])] "A" 1 1
      (prepNorm (prepareTrainingData
        [("A", [⟨1,1,1,1,1000000⟩, ⟨3,3,3,3,3000000⟩, ⟨1,1,1,1,1000000⟩])]
        "A" 1 1 []))) = [[[4, 4, 4, 4]]] ∧
    ¬ (∀ plane ∈ prepY (prepareTrainingData
        [("A", [⟨1,1,1,1,1000000⟩, ⟨9,9,9,9,9000000⟩, ⟨1,1,1,1,1000000⟩])] "A" 1 1
        (prepNorm (prepareTrainingData
          [("A", [⟨1,1,1,1,1000000⟩, ⟨3,3,3,3,3000000⟩, ⟨1,1,1,1,1000000⟩])]
          "A" 1 1 []))),
      ∀ row ∈ plane, ∀ q ∈ row, 0 ≤ q ∧ q ≤ 1) := by
  have ht0 : toString (0 : ℕ) = "0" := by decide
  have ht1 : toString (1 : ℕ) = "1" := by decide
  have ht2 : toString (2 : ℕ) = "2" := by decide
  have ht3 : toString (3 : ℕ) = "3" := by decide
  have ht4 : toString (4 : ℕ) = "4" := by decide
  have hs1 : prepNorm (prepareTrainingData
      [("A", [⟨1,1,1,1,1000000⟩, ⟨3,3,3,3,3000000⟩, ⟨1,1,1,1,1000000⟩])]
      "A" 1 1 []) =
      [("A_dim4", ⟨1, 3, 2⟩), ("A_dim3", ⟨1, 3, 2⟩), ("A_dim2", ⟨1, 3, 2⟩),
       ("A_dim1", ⟨1, 3, 2⟩), ("A_dim0", ⟨1, 3, 2⟩)] := by
    simp [prepareTrainingData, prepNorm, normSources, normRows, normRowAux,
      normCell, extractFeatures, paramsFor, minLengthOf, listMinN, nKey, lookupA,
      listMinQ, listMaxQ, buildX, buildY, List.range, List.range.loop,
      List.getD, ht0, ht1, ht2, ht3, ht4]
    norm_num [min_def, max_def]
  have h1 : prepY (prepareTrainingData
      [("A", [⟨1,1,1,1,1000000⟩, ⟨9,9,9,9,9000000⟩, ⟨1,1,1,1,1000000⟩])] "A" 1 1
      (prepNorm (prepareTrainingData
        [("A", [⟨1,1,1,1,1000000⟩, ⟨3,3,3,3,3000000⟩, ⟨1,1,1,1,1000000⟩])]
        "A" 1 1 []))) = [[[(4:ℚ), 4, 4, 4]]] := by
    rw [hs1]
    simp [prepareTrainingData, prepY, normSources, normRows, normRowAux,
      normCell, extractFeatures, paramsFor, minLengthOf, listMinN, nKey, lookupA,
      listMinQ, listMaxQ, buildX, buildY, List.range, List.range.loop,
      List.getD, ht0, ht1, ht2, ht3, ht4]
    norm_num [min_def, max_def]
  refine ⟨h1, fun hall => ?_⟩
  have h4 := hall [[(4:ℚ), 4, 4, 4]] (by rw [h1]; simp) [(4:ℚ), 4, 4, 4] (by simp)
    4 (by simp)
  linarith [h4.2]

/-! Section : Claim C9 : Pearson correlation -/

theorem corrDenomP_nonneg (pf : List ℝ) : 0 ≤ corrDenomP pf :=
  Finset.sum_nonneg fun i _ => mul_self_nonneg (corrDiffP pf i)

theorem corrDenomA_nonneg (pf af : List ℝ) : 0 ≤ corrDenomA pf af :=
  Finset.sum_nonneg fun i _ => mul_self_nonneg (corrDiffA pf af i)

/-- Cauchy-Schwarz for the loop accumulators. -/
theorem corrNum_sq_le (pf af : List ℝ) :
    corrNum pf af * corrNum pf af ≤ corrDenomP pf * corrDenomA pf af := by
  have h := Finset.sum_mul_sq_le_sq_mul_sq (Finset.range pf.length)
    (fun i => corrDiffP pf i) (fun i => corrDiffA pf af i)
  simpa [corrNum, corrDenomP, corrDenomA, pow_two] using h

/-- Claim C9: `calculateCorrelation` flattens both inputs and computes
the Pearson quotient; for shape-matched inputs the result lies in
[-1, 1]; when either flattened series has zero variance (zero
denominator accumulator) it returns 0 rather than NaN; and identical
inputs with nonzero variance yield exactly 1. -/
theorem C9_correlation (preds acts : List (List (List ℝ)))
    (hlen : (flat2 acts).length = (flat2 preds).length) :
    (-1 ≤ calculateCorrelation preds acts ∧ calculateCorrelation preds acts ≤ 1) ∧
    ((corrDenomP (flat2 preds) = 0 ∨ corrDenomA (flat2 preds) (flat2 acts) = 0) →
      calculateCorrelation preds acts = 0) ∧
    (preds = acts → corrDenomP (flat2 preds) ≠ 0 →
      calculateCorrelation preds acts = 1) := by
  by_cases hn : (flat2 preds).length = 0
  · have hval : calculateCorrelation preds acts = 0 := by
      simp only [calculateCorrelation]
      rw [if_pos hn]
    refine ⟨⟨by rw [hval]; norm_num, by rw [hval]; norm_num⟩, fun _ => hval, ?_⟩
    intro heq hdne
    exfalso
    apply hdne
    simp [corrDenomP, hn]
  · have hPnn := corrDenomP_nonneg (flat2 preds)
    have hAnn := corrDenomA_nonneg (flat2 preds) (flat2 acts)
    by_cases hd : 0 < Real.sqrt (corrDenomP (flat2 preds)) *
        Real.sqrt (corrDenomA (flat2 preds) (flat2 acts))
    · have hval : calculateCorrelation preds acts =
          corrNum (flat2 preds) (flat2 acts) /
            (Real.sqrt (corrDenomP (flat2 preds)) *
              Real.sqrt (corrDenomA (flat2 preds) (flat2 acts))) := by
        simp only [calculateCorrelation]
        rw [if_neg hn, if_pos hd]
      have habs : |corrNum (flat2 preds) (flat2 acts)| ≤
          Real.sqrt (corrDenomP (flat2 preds)) *
            Real.sqrt (corrDenomA (flat2 preds) (flat2 acts)) := by
        have h1 : |corrNum (flat2 preds) (flat2 acts)| =
            Real.sqrt (corrNum (flat2 preds) (flat2 acts) *
              corrNum (flat2 preds) (flat2 acts)) :=
          (Real.sqrt_mul_self_eq_abs _).symm
        rw [h1, ← Real.sqrt_mul hPnn]
        exact Real.sqrt_le_sqrt (corrNum_sq_le _ _)
      have hdiv : |calculateCorrelation preds acts| ≤ 1 := by
        rw [hval, abs_div, abs_of_pos hd]
        rw [div_le_one hd]
        exact habs
      refine ⟨abs_le.mp hdiv, ?_, ?_⟩
      · intro hor
        exfalso
        rcases hor with h0 | h0 <;> rw [h0] at hd <;> simp at hd
      · intro heq hdne
        subst heq
        have hAP : corrDenomA (flat2 preds) (flat2 preds) = corrDenomP (flat2 preds) := rfl
        have hNP : corrNum (flat2 preds) (flat2 preds) = corrDenomP (flat2 preds) := rfl
        rw [hval, hAP, hNP, Real.mul_self_sqrt hPnn]
        exact div_self hdne
    · have hval : calculateCorrelation preds acts = 0 := by
        simp only [calculateCorrelation]
        rw [if_neg hn, if_neg hd]
      refine ⟨⟨by rw [hval]; norm_num, by rw [hval]; norm_num⟩, fun _ => hval, ?_⟩
      intro heq hdne
      exfalso
      apply hd
      subst heq
      have hAP : corrDenomA (flat2 preds) (flat2 preds) = corrDenomP (flat2 preds) := rfl
      rw [hAP]
      have hpos : 0 < corrDenomP (flat2 preds) := lt_of_le_of_ne hPnn (Ne.symm hdne)
      have := Real.sqrt_pos.mpr hpos
      positivity

theorem C9_correlation_witness :
    corrDenomP (flat2 [[[(0:ℝ), 1]]]) ≠ 0 ∧
    calculateCorrelation [[[(0:ℝ), 1]]] [[[(0:ℝ), 1]]] = 1 := by
  have hdne : corrDenomP (flat2 [[[(0:ℝ), 1]]]) ≠ 0 := by
    simp only [flat2, List.flatten, corrDenomP, corrDiffP]
    norm_num [Finset.sum_range_succ]
  exact ⟨hdne, (C9_correlation [[[(0:ℝ), 1]]] [[[(0:ℝ), 1]]] rfl).2.2 rfl hdne⟩

